import Mathlib

/-!
# Verification of the quantum-machine-learning notebooks

A shallow embedding of the notebook `5_Gate_Model_Quantum_Computing_Qiskit.ipynb`
(two notebooks in one file: a gate-model circuit demo, and an unsupervised-clustering
max-cut demo solved by QAOA and by simulated annealing).

The embedding covers:
* the pairwise-distance weight matrix `w` built by
  `for i, j in itertools.product(*[range(n_instances)]*2): w[i, j] = np.linalg.norm(data[i]-data[j])`,
  modelled as a left fold of single-cell writes over the enumerated index pairs,
  starting from the all-zero matrix `np.zeros((n_instances, n_instances))`;
* the Ising dictionaries `J` and `h` built by
  `for i in range(n_instances): h[i] = 0; for j in range(i+1, n_instances): J[(i, j)] = w[i, j]`,
  modelled as the association lists produced in loop order;
* the `dimod.BinaryQuadraticModel(h, J, 0.0, dimod.SPIN)` value and the sampler contract;
* the qiskit circuit built by `QuantumCircuit(q, c)`, `circuit.h(q[0])`,
  `circuit.cx(q[0], q[1])`, `circuit.measure(q, c)`;
* the straight-line exception behaviour of the fallible cells (sequencing in `Except`);
* the program-order trace of pipeline steps and the external library calls of every cell.

Real numbers stand for the numpy floating-point values; `data` is an arbitrary
`n_instances × d` real array standing for the randomly generated synthetic data.
-/

namespace QmlNotebooks

/-- `np.linalg.norm(x - y)`: the Euclidean norm of the difference of two
`d`-dimensional real vectors.  (`noncomputable` only because `Real.sqrt` is; this
is the faithful translation of the floating-point norm into exact reals.) -/
noncomputable def norm_diff (d : ℕ) (x y : ℕ → ℝ) : ℝ :=
  Real.sqrt (∑ k in Finset.range d, (x k - y k) ^ 2)

/-- The index pairs enumerated by `itertools.product(*[range(n)]*2)`, in iteration
order: `(0,0), (0,1), …, (0,n-1), (1,0), …, (n-1,n-1)`. -/
def product_pairs (n : ℕ) : List (ℕ × ℕ) :=
  (List.range n).flatMap fun i => (List.range n).map fun j => (i, j)

/-- One iteration of the loop body `w[i, j] = np.linalg.norm(data[i] - data[j])`:
update the single cell `p` of the matrix `m`. -/
noncomputable def write_entry (d : ℕ) (data : ℕ → ℕ → ℝ) (m : ℕ → ℕ → ℝ)
    (p : ℕ × ℕ) : ℕ → ℕ → ℝ :=
  fun i j =>
    if i = p.1 ∧ j = p.2 then norm_diff d (data p.1) (data p.2) else m i j

/-- The weight matrix `w` built by the distance-computation loop, starting from
`np.zeros((n_instances, n_instances))`.  Cells outside the `n × n` range keep the
initial value `0`. -/
noncomputable def w (d n : ℕ) (data : ℕ → ℕ → ℝ) : ℕ → ℕ → ℝ :=
  (product_pairs n).foldl (write_entry d data) fun _ _ => 0

lemma foldl_write_entry_not_mem (d : ℕ) (data : ℕ → ℕ → ℝ) (l : List (ℕ × ℕ)) :
    ∀ (m : ℕ → ℕ → ℝ) (i j : ℕ), (i, j) ∉ l →
      l.foldl (write_entry d data) m i j = m i j := by
  induction l with
  | nil => intro m i j _; rfl
  | cons a t ih =>
      intro m i j hnot
      have h1 : (i, j) ∉ t := fun hmem => hnot (List.mem_cons_of_mem a hmem)
      have h2 : (i, j) ≠ a := fun heq => hnot (heq ▸ List.mem_cons_self a t)
      rw [List.foldl_cons, ih _ i j h1]
      simp only [write_entry]
      rw [if_neg]
      rintro ⟨hc1, hc2⟩
      exact h2 (Prod.ext hc1 hc2)

lemma foldl_write_entry_mem (d : ℕ) (data : ℕ → ℕ → ℝ) (l : List (ℕ × ℕ)) :
    ∀ (m : ℕ → ℕ → ℝ) (i j : ℕ), (i, j) ∈ l →
      l.foldl (write_entry d data) m i j = norm_diff d (data i) (data j) := by
  induction l with
  | nil => intro m i j hmem; cases hmem
  | cons a t ih =>
      intro m i j hmem
      by_cases ht : (i, j) ∈ t
      · rw [List.foldl_cons]; exact ih _ i j ht
      · have ha : a = (i, j) := by
          rcases List.mem_cons.mp hmem with heq | ht2
          · exact heq.symm
          · exact absurd ht2 ht
        subst ha
        rw [List.foldl_cons, foldl_write_entry_not_mem d data t _ i j ht]
        simp [write_entry]

lemma mem_product_pairs (n i j : ℕ) : (i, j) ∈ product_pairs n ↔ i < n ∧ j < n := by
  simp [product_pairs, List.mem_flatMap, List.mem_map, List.mem_range]

/-- Inside the index range, `w[i, j]` is the distance between the `i`-th and `j`-th
data points. -/
lemma w_apply (d n : ℕ) (data : ℕ → ℕ → ℝ) {i j : ℕ} (hi : i < n) (hj : j < n) :
    w d n data i j = norm_diff d (data i) (data j) :=
  foldl_write_entry_mem d data (product_pairs n) _ i j
    ((mem_product_pairs n i j).mpr ⟨hi, hj⟩)

/-- Outside the index range, `w[i, j]` keeps the initial value `0`. -/
lemma w_apply_out (d n : ℕ) (data : ℕ → ℕ → ℝ) {i j : ℕ} (hij : ¬(i < n ∧ j < n)) :
    w d n data i j = 0 :=
  foldl_write_entry_not_mem d data (product_pairs n) _ i j
    (fun hmem => hij ((mem_product_pairs n i j).mp hmem))

lemma norm_diff_comm (d : ℕ) (x y : ℕ → ℝ) : norm_diff d x y = norm_diff d y x := by
  unfold norm_diff
  congr 1
  exact Finset.sum_congr rfl fun k _ => by ring

lemma norm_diff_self (d : ℕ) (x : ℕ → ℝ) : norm_diff d x x = 0 := by
  simp [norm_diff]

lemma norm_diff_nonneg (d : ℕ) (x y : ℕ → ℝ) : 0 ≤ norm_diff d x y :=
  Real.sqrt_nonneg _

/-- The weight matrix is symmetric (globally: out-of-range cells are all `0`). -/
lemma w_symm (d n : ℕ) (data : ℕ → ℕ → ℝ) (i j : ℕ) :
    w d n data i j = w d n data j i := by
  by_cases hin : i < n ∧ j < n
  · rw [w_apply d n data hin.1 hin.2, w_apply d n data hin.2 hin.1,
      norm_diff_comm]
  · rw [w_apply_out d n data hin, w_apply_out d n data (fun hc => hin ⟨hc.2, hc.1⟩)]

/-- The weight matrix has zero diagonal. -/
lemma w_diag (d n : ℕ) (data : ℕ → ℕ → ℝ) (i : ℕ) : w d n data i i = 0 := by
  by_cases hin : i < n
  · rw [w_apply d n data hin hin, norm_diff_self]
  · exact w_apply_out d n data (fun hc => hin hc.1)

/-- Every entry of the weight matrix is nonnegative. -/
lemma w_nonneg (d n : ℕ) (data : ℕ → ℕ → ℝ) (i j : ℕ) : 0 ≤ w d n data i j := by
  by_cases hin : i < n ∧ j < n
  · rw [w_apply d n data hin.1 hin.2]; exact norm_diff_nonneg d _ _
  · rw [w_apply_out d n data hin]

/-- The coupling dictionary `J` built by
`for i in range(n_instances): for j in range(i+1, n_instances): J[(i, j)] = w[i, j]`,
as the association list of key/value pairs produced in loop order.  Each key is
written exactly once, so the list is a faithful model of the Python dict. -/
def J (n : ℕ) (wm : ℕ → ℕ → ℝ) : List ((ℕ × ℕ) × ℝ) :=
  (List.range n).flatMap fun i =>
    (List.range' (i + 1) (n - (i + 1))).map fun j => ((i, j), wm i j)

/-- The on-site field dictionary `h` built by `h[i] = 0` for `i in range(n_instances)`,
as the association list produced in loop order. -/
def h (n : ℕ) : List (ℕ × ℝ) :=
  (List.range n).map fun i => (i, (0 : ℝ))

lemma mem_J (n : ℕ) (wm : ℕ → ℕ → ℝ) (i j : ℕ) (v : ℝ) :
    ((i, j), v) ∈ J n wm ↔ i < j ∧ j < n ∧ v = wm i j := by
  constructor
  · intro hmem
    simp only [J, List.mem_flatMap, List.mem_map, List.mem_range] at hmem
    obtain ⟨a, ha, b, hb, heq⟩ := hmem
    have hb' : a + 1 ≤ b ∧ b < a + 1 + (n - (a + 1)) := List.mem_range'_1.mp hb
    obtain ⟨hab, hbn⟩ := hb'
    obtain ⟨⟨hai, hbj⟩, hv⟩ : (a = i ∧ b = j) ∧ wm a b = v := by
      simpa [Prod.ext_iff] using heq
    subst hai; subst hbj; subst hv
    exact ⟨hab, by omega, rfl⟩
  · rintro ⟨hij, hjn, hv⟩
    subst hv
    simp only [J, List.mem_flatMap, List.mem_map, List.mem_range]
    exact ⟨i, by omega, j, List.mem_range'_1.mpr ⟨hij, by omega⟩, rfl⟩

lemma J_keys (n : ℕ) (wm : ℕ → ℕ → ℝ) :
    (J n wm).map Prod.fst =
      (List.range n).flatMap fun i =>
        (List.range' (i + 1) (n - (i + 1))).map fun j => (i, j) := by
  simp only [J, List.map_flatMap, List.map_map]
  rfl

lemma J_keys_nodup (n : ℕ) (wm : ℕ → ℕ → ℝ) : ((J n wm).map Prod.fst).Nodup := by
  rw [J_keys, List.nodup_flatMap]
  constructor
  · intro i _
    refine (List.nodup_range' _ _).map ?_
    intro a b hab
    simpa using hab
  · refine (List.pairwise_lt_range n).imp ?_
    intro a b hab p hp1 hp2
    simp only [List.mem_map] at hp1 hp2
    obtain ⟨j1, _, he1⟩ := hp1
    obtain ⟨j2, _, he2⟩ := hp2
    rw [← he1] at he2
    have : b = a := congrArg Prod.fst he2
    omega

lemma mem_h (n : ℕ) (i : ℕ) (v : ℝ) : (i, v) ∈ h n ↔ i < n ∧ v = 0 := by
  simp only [h, List.mem_map, List.mem_range, Prod.ext_iff]
  constructor
  · rintro ⟨a, ha, ha1, ha2⟩
    exact ⟨ha1 ▸ ha, ha2.symm⟩
  · rintro ⟨hi, hv⟩
    exact ⟨i, hi, rfl, hv.symm⟩

/-- Modelled from the spec: `max_cut.get_max_cut_qubitops(w)` belongs to the external
quantum library, so the qubit operator handed to QAOA is modelled by the notebook's own
derivation of the encoding.  The notebook states that the cut value is
`(1/4)·Σᵢⱼ wᵢⱼ·(1 − σᵢσⱼ)` and that the quantum optimizer minimises its negative, so we
take the objective of the qubit-operator formulation on a spin assignment `σ` to be
that negative. -/
noncomputable def maxcut_objective (n : ℕ) (wm : ℕ → ℕ → ℝ) (σ : ℕ → ℝ) : ℝ :=
  -(1 / 4) * ∑ i in Finset.range n, ∑ j in Finset.range n, wm i j * (1 - σ i * σ j)

/-- The constant (spin-independent) part of the qubit-operator objective: the affine
offset separating it from the annealer's Ising energy. -/
noncomputable def maxcut_shift (n : ℕ) (wm : ℕ → ℕ → ℝ) : ℝ :=
  -(1 / 2) * ∑ i in Finset.range n, ∑ j in Finset.Ico (i + 1) n, wm i j

/-- The Ising energy of `dimod.BinaryQuadraticModel(h, J, 0.0, dimod.SPIN)` on a spin
assignment `σ`: linear terms `Σᵢ h[i]·σᵢ` plus quadratic terms `Σ J[(i,j)]·σᵢ·σⱼ`
(the constant offset of the model is `0.0`). -/
def ising_energy (lin : List (ℕ × ℝ)) (quad : List ((ℕ × ℕ) × ℝ)) (σ : ℕ → ℝ) : ℝ :=
  (lin.map fun p => p.2 * σ p.1).sum + (quad.map fun q => q.2 * σ q.1.1 * σ q.1.2).sum

lemma sum_map_range (f : ℕ → ℝ) (n : ℕ) :
    ((List.range n).map f).sum = ∑ i in Finset.range n, f i := by
  induction n with
  | zero => simp
  | succ m ih =>
      rw [List.range_succ, List.map_append, List.sum_append, Finset.sum_range_succ, ih]
      simp

lemma sum_map_range' (f : ℕ → ℝ) :
    ∀ (len s : ℕ), ((List.range' s len).map f).sum = ∑ k in Finset.range len, f (s + k) := by
  intro len
  induction len with
  | zero => intro s; simp
  | succ m ih =>
      intro s
      rw [List.range'_succ, List.map_cons, List.sum_cons, ih (s + 1),
        Finset.sum_range_succ']
      simp only [Nat.add_zero]
      rw [add_comm]
      congr 1
      refine Finset.sum_congr rfl fun k _ => ?_
      congr 1
      omega

lemma sum_map_flatMap {α β : Type} (l : List α) (f : α → List β) (g : β → ℝ) :
    ((l.flatMap f).map g).sum = (l.map fun a => ((f a).map g).sum).sum := by
  induction l with
  | nil => simp
  | cons a t ih =>
      rw [List.flatMap_cons, List.map_append, List.sum_append, ih, List.map_cons,
        List.sum_cons]

/-- The Ising energy of the model built in the annealing cell: the linear part
vanishes (`h[i] = 0`) and the quadratic part sums `w[i,j]·σᵢ·σⱼ` over `i < j < n`. -/
lemma ising_energy_eq (n : ℕ) (wm : ℕ → ℕ → ℝ) (σ : ℕ → ℝ) :
    ising_energy (h n) (J n wm) σ =
      ∑ i in Finset.range n, ∑ j in Finset.Ico (i + 1) n, wm i j * σ i * σ j := by
  unfold ising_energy
  have hlin : ((h n).map fun p => p.2 * σ p.1).sum = 0 := by
    unfold h
    rw [List.map_map]
    have : ((List.range n).map ((fun p : ℕ × ℝ => p.2 * σ p.1) ∘ fun i => (i, (0 : ℝ)))).sum
        = ∑ i in Finset.range n, (0 : ℝ) * σ i := sum_map_range _ n
    rw [this]
    simp
  rw [hlin, zero_add]
  unfold J
  rw [sum_map_flatMap]
  have hout :
      ((List.range n).map fun i =>
          (((List.range' (i + 1) (n - (i + 1))).map fun j => ((i, j), wm i j)).map
              fun q => q.2 * σ q.1.1 * σ q.1.2).sum).sum
        = ∑ i in Finset.range n,
            (((List.range' (i + 1) (n - (i + 1))).map fun j => ((i, j), wm i j)).map
                fun q => q.2 * σ q.1.1 * σ q.1.2).sum :=
    sum_map_range _ n
  rw [hout]
  refine Finset.sum_congr rfl fun i _ => ?_
  rw [List.map_map]
  have hinner :
      ((List.range' (i + 1) (n - (i + 1))).map
          ((fun q : (ℕ × ℕ) × ℝ => q.2 * σ q.1.1 * σ q.1.2) ∘ fun j => ((i, j), wm i j))).sum
        = ∑ k in Finset.range (n - (i + 1)), wm i (i + 1 + k) * σ i * σ (i + 1 + k) :=
    sum_map_range' _ _ _
  rw [hinner, Finset.sum_Ico_eq_sum_range]

/-- For a symmetric matrix with zero diagonal, the full double sum is twice the
strictly-upper-triangular sum. -/
lemma double_sum_symm (a : ℕ → ℕ → ℝ) (hsymm : ∀ i j, a i j = a j i)
    (hdiag : ∀ i, a i i = 0) (n : ℕ) :
    ∑ i in Finset.range n, ∑ j in Finset.range n, a i j
      = 2 * ∑ i in Finset.range n, ∑ j in Finset.Ico (i + 1) n, a i j := by
  induction n with
  | zero => simp
  | succ m ih =>
      have hL : ∑ i in Finset.range (m + 1), ∑ j in Finset.range (m + 1), a i j
          = (∑ i in Finset.range m, ∑ j in Finset.range m, a i j)
            + 2 * ∑ i in Finset.range m, a i m := by
        calc
          ∑ i in Finset.range (m + 1), ∑ j in Finset.range (m + 1), a i j
              = ∑ i in Finset.range (m + 1), ((∑ j in Finset.range m, a i j) + a i m) :=
                Finset.sum_congr rfl fun i _ => Finset.sum_range_succ _ _
          _ = (∑ i in Finset.range (m + 1), ∑ j in Finset.range m, a i j)
                + ∑ i in Finset.range (m + 1), a i m := Finset.sum_add_distrib
          _ = ((∑ i in Finset.range m, ∑ j in Finset.range m, a i j)
                  + ∑ j in Finset.range m, a m j)
                + ((∑ i in Finset.range m, a i m) + a m m) := by
                rw [Finset.sum_range_succ, Finset.sum_range_succ
                  (fun i => a i m) m]
          _ = (∑ i in Finset.range m, ∑ j in Finset.range m, a i j)
                + 2 * ∑ i in Finset.range m, a i m := by
                rw [hdiag m]
                have hrow : ∑ j in Finset.range m, a m j = ∑ j in Finset.range m, a j m :=
                  Finset.sum_congr rfl fun j _ => hsymm m j
                rw [hrow]
                ring
      have hR : ∑ i in Finset.range (m + 1), ∑ j in Finset.Ico (i + 1) (m + 1), a i j
          = (∑ i in Finset.range m, ∑ j in Finset.Ico (i + 1) m, a i j)
            + ∑ i in Finset.range m, a i m := by
        calc
          ∑ i in Finset.range (m + 1), ∑ j in Finset.Ico (i + 1) (m + 1), a i j
              = (∑ i in Finset.range m, ∑ j in Finset.Ico (i + 1) (m + 1), a i j)
                + ∑ j in Finset.Ico (m + 1) (m + 1), a m j :=
                Finset.sum_range_succ _ _
          _ = ∑ i in Finset.range m, ((∑ j in Finset.Ico (i + 1) m, a i j) + a i m) := by
                rw [Finset.Ico_self, Finset.sum_empty, add_zero]
                refine Finset.sum_congr rfl fun i hi => ?_
                exact Finset.sum_Ico_succ_top
                  (Nat.succ_le_of_lt (Finset.mem_range.mp hi)) _
          _ = (∑ i in Finset.range m, ∑ j in Finset.Ico (i + 1) m, a i j)
                + ∑ i in Finset.range m, a i m := Finset.sum_add_distrib
      rw [hL, hR, ih]
      ring

/-- For any symmetric, zero-diagonal weight matrix, the qubit-operator objective is an
affine function (positive slope `1/2`, constant `maxcut_shift`) of the annealer's
Ising energy. -/
lemma maxcut_objective_affine (n : ℕ) (wm : ℕ → ℕ → ℝ)
    (hsymm : ∀ i j, wm i j = wm j i) (hdiag : ∀ i, wm i i = 0) (σ : ℕ → ℝ) :
    maxcut_objective n wm σ
      = (1 / 2) * ising_energy (h n) (J n wm) σ + maxcut_shift n wm := by
  unfold maxcut_objective maxcut_shift
  rw [ising_energy_eq]
  rw [double_sum_symm (fun i j => wm i j * (1 - σ i * σ j))
    (fun i j => by simp only []; rw [hsymm i j]; ring)
    (fun i => by simp only []; rw [hdiag i]; ring) n]
  have hsplit :
      ∑ i in Finset.range n, ∑ j in Finset.Ico (i + 1) n, wm i j * (1 - σ i * σ j)
        = (∑ i in Finset.range n, ∑ j in Finset.Ico (i + 1) n, wm i j)
          - ∑ i in Finset.range n, ∑ j in Finset.Ico (i + 1) n, wm i j * σ i * σ j := by
    rw [← Finset.sum_sub_distrib]
    refine Finset.sum_congr rfl fun i _ => ?_
    rw [← Finset.sum_sub_distrib]
    exact Finset.sum_congr rfl fun j _ => by ring
  rw [hsplit]
  ring

/-- The `dimod` variable types; the notebook uses `dimod.SPIN`. -/
inductive Vartype
  | SPIN
  | BINARY
  deriving DecidableEq

/-- `dimod.BinaryQuadraticModel(linear, quadratic, offset, vartype)`. -/
structure BinaryQuadraticModel where
  linear : List (ℕ × ℝ)
  quadratic : List ((ℕ × ℕ) × ℝ)
  offset : ℝ
  vartype : Vartype

/-- `model = dimod.BinaryQuadraticModel(h, J, 0.0, dimod.SPIN)` for the matrix `w`. -/
noncomputable def model (d n : ℕ) (data : ℕ → ℕ → ℝ) : BinaryQuadraticModel :=
  ⟨h n, J n (w d n data), 0, Vartype.SPIN⟩

/-- The variables of a binary quadratic model: the keys of its linear dictionary
(`h` names every variable `0, …, n_instances - 1`). -/
def BinaryQuadraticModel.varList (m : BinaryQuadraticModel) : List ℕ :=
  m.linear.map Prod.fst

/-- Modelled from the spec: the annealing sampler is an external black box; the spec
says its samples are spin-assignment vectors, i.e. each sampled value is one that the
model's variable type permits — `-1`/`+1` for `dimod.SPIN`, `0`/`1` for binary. -/
def allowed_value : Vartype → ℤ → Prop
  | Vartype.SPIN, v => v = -1 ∨ v = 1
  | Vartype.BINARY, v => v = 0 ∨ v = 1

/-- Modelled from the spec: a sample returned by `sampler.sample(model, …)` assigns
every model variable a value allowed by the model's variable type. -/
def IsSample (m : BinaryQuadraticModel) (s : ℕ → ℤ) : Prop :=
  ∀ i ∈ m.varList, allowed_value m.vartype (s i)

/-- The circuit instructions appearing in the notebook: Hadamard, CNOT, and
measurement of a qubit into a classical bit. -/
inductive Instruction
  | hGate (target : ℕ)
  | cxGate (control : ℕ) (target : ℕ)
  | measureGate (qubit : ℕ) (clbit : ℕ)
  deriving DecidableEq

/-- `QuantumRegister(size)`. -/
structure QuantumRegister where
  size : ℕ
  deriving DecidableEq

/-- `ClassicalRegister(size)`. -/
structure ClassicalRegister where
  size : ℕ
  deriving DecidableEq

/-- A qiskit circuit: its quantum registers, classical registers, and the ordered
list of appended instructions. -/
structure QuantumCircuit where
  qregs : List QuantumRegister
  cregs : List ClassicalRegister
  instructions : List Instruction
  deriving DecidableEq

/-- `QuantumCircuit(q, c)`: a circuit over the two registers with no instructions. -/
def QuantumCircuit.make (qr : QuantumRegister) (cr : ClassicalRegister) :
    QuantumCircuit :=
  ⟨[qr], [cr], []⟩

/-- `circuit.h(q[i])`. -/
def QuantumCircuit.addH (qc : QuantumCircuit) (i : ℕ) : QuantumCircuit :=
  { qc with instructions := qc.instructions ++ [Instruction.hGate i] }

/-- `circuit.cx(q[i], q[j])`. -/
def QuantumCircuit.addCx (qc : QuantumCircuit) (i j : ℕ) : QuantumCircuit :=
  { qc with instructions := qc.instructions ++ [Instruction.cxGate i j] }

/-- `circuit.measure(q, c)` with whole registers: measures qubit `k` of `q` into
classical bit `k` of `c`, for every `k` below the register size. -/
def QuantumCircuit.measureRegs (qc : QuantumCircuit) (qr : QuantumRegister)
    (_cr : ClassicalRegister) : QuantumCircuit :=
  { qc with
      instructions :=
        qc.instructions ++ (List.range qr.size).map fun k => Instruction.measureGate k k }

/-- `q = QuantumRegister(2)`. -/
def q : QuantumRegister := ⟨2⟩

/-- `c = ClassicalRegister(2)`. -/
def c : ClassicalRegister := ⟨2⟩

/-- The circuit after the first cell:
`circuit = QuantumCircuit(q, c); circuit.h(q[0]); circuit.cx(q[0], q[1])`. -/
def circuit_with_gates : QuantumCircuit :=
  ((QuantumCircuit.make q c).addH 0).addCx 0 1

/-- The circuit after the measurement cell `circuit.measure(q, c)`. -/
def measured_circuit : QuantumCircuit :=
  circuit_with_gates.measureRegs q c

/-- The pipeline steps the spec names, one constructor per step. -/
inductive PipelineStep
  | constructCircuit
  | addMeasurements
  | executeCircuit
  | buildWeightMatrix
  | buildQubitOperator
  | runQaoa
  | runAnnealingSampler
  deriving DecidableEq

/-- The order in which the notebook cells perform the pipeline steps, read off the
source top to bottom: the circuit cell, the measurement cell, the execution cell
(first notebook); the weight-matrix cell, the `get_max_cut_qubitops` cell, the
`qaoa.run` cell, the `sampler.sample` cell (second notebook). -/
def notebook_step_order : List PipelineStep :=
  [PipelineStep.constructCircuit, PipelineStep.addMeasurements,
   PipelineStep.executeCircuit, PipelineStep.buildWeightMatrix,
   PipelineStep.buildQubitOperator, PipelineStep.runQaoa,
   PipelineStep.runAnnealingSampler]

/-- The library calls of the two fallible cells modelled for the error-handling
claim. -/
inductive CellCall
  | executeCall
  | plotHistogramCall
  | qaoaRunCall
  | printResultsCall
  deriving DecidableEq

/-- The cell `job = execute(circuit, backend, shots=100);
plot_histogram(job.result().get_counts(circuit))`: straight-line sequencing in the
exception monad (Python without `try`/`except`), together with the list of library
calls the cell actually makes.  `executeResult` and `plotHistogram` are the external
library's behaviours, passed in as oracles. -/
def run_execute_cell {ε α β : Type} (executeResult : Except ε α)
    (plotHistogram : α → Except ε β) : Except ε β × List CellCall :=
  match executeResult with
  | Except.error e => (Except.error e, [CellCall.executeCall])
  | Except.ok jobResult =>
      match plotHistogram jobResult with
      | Except.error e =>
          (Except.error e, [CellCall.executeCall, CellCall.plotHistogramCall])
      | Except.ok out =>
          (Except.ok out, [CellCall.executeCall, CellCall.plotHistogramCall])

/-- The cell `result = qaoa.run(quantum_instance); print(...); print(...); …`:
the run call followed by the result prints, sequenced in the exception monad. -/
def run_qaoa_cell {ε α β : Type} (qaoaRunResult : Except ε α)
    (printResults : α → Except ε β) : Except ε β × List CellCall :=
  match qaoaRunResult with
  | Except.error e => (Except.error e, [CellCall.qaoaRunCall])
  | Except.ok res =>
      match printResults res with
      | Except.error e =>
          (Except.error e, [CellCall.qaoaRunCall, CellCall.printResultsCall])
      | Except.ok out =>
          (Except.ok out, [CellCall.qaoaRunCall, CellCall.printResultsCall])

/-- The external libraries whose interfaces the notebook cells call into. -/
inductive ExternalLib
  | qiskit
  | dimod
  | numpy
  | matplotlib
  | pythonStd
  deriving DecidableEq

/-- Every call into an external library's interface occurring in the notebook cells,
one constructor per call site, in source order. -/
inductive ExternalCall
  | quantumRegisterNew
  | classicalRegisterNew
  | quantumCircuitNew
  | circuitAddH
  | circuitAddCx
  | circuitDrawerRun
  | circuitMeasureRun
  | aerGetBackend
  | executeRun
  | jobResultGetCounts
  | plotHistogramRun
  | assembleRun
  | qobjAsDict
  | npRandomRandClass1
  | npRandomRandClass2
  | npConcatenate
  | pltFigure
  | figAddSubplot
  | axScatter
  | npZeros
  | itertoolsProduct
  | npLinalgNorm
  | maxCutGetQubitOps
  | cobylaNew
  | qaoaNew
  | aquaGetAerBackend
  | quantumInstanceNew
  | qaoaRunCall
  | sampleMostLikely
  | getGraphSolution
  | maxCutValueRun
  | dimodBqmNew
  | dimodSamplerNew
  | samplerSampleRun
  | responseDataRun
  deriving DecidableEq

/-- The library each call site belongs to (`qiskit.aqua` counts as the
quantum-circuit library; `itertools` is the Python standard library). -/
def ExternalCall.lib : ExternalCall → ExternalLib
  | quantumRegisterNew | classicalRegisterNew | quantumCircuitNew
  | circuitAddH | circuitAddCx | circuitDrawerRun | circuitMeasureRun
  | aerGetBackend | executeRun | jobResultGetCounts | plotHistogramRun
  | assembleRun | qobjAsDict
  | maxCutGetQubitOps | cobylaNew | qaoaNew
  | aquaGetAerBackend | quantumInstanceNew | qaoaRunCall
  | sampleMostLikely | getGraphSolution | maxCutValueRun => ExternalLib.qiskit
  | dimodBqmNew | dimodSamplerNew | samplerSampleRun | responseDataRun =>
      ExternalLib.dimod
  | npRandomRandClass1 | npRandomRandClass2 | npConcatenate
  | npZeros | npLinalgNorm => ExternalLib.numpy
  | pltFigure | figAddSubplot | axScatter => ExternalLib.matplotlib
  | itertoolsProduct => ExternalLib.pythonStd

/-- The external-library calls the notebook cells make, in source order (the drawer
is called in both circuit cells; `get_graph_solution` is called twice in the QAOA
result cell; `itertools.product` is called again in the inspection cell). -/
def notebook_calls : List ExternalCall :=
  [ExternalCall.quantumRegisterNew, ExternalCall.classicalRegisterNew,
   ExternalCall.quantumCircuitNew, ExternalCall.circuitAddH,
   ExternalCall.circuitAddCx, ExternalCall.circuitDrawerRun,
   ExternalCall.circuitMeasureRun, ExternalCall.circuitDrawerRun,
   ExternalCall.aerGetBackend, ExternalCall.executeRun,
   ExternalCall.jobResultGetCounts, ExternalCall.plotHistogramRun,
   ExternalCall.assembleRun, ExternalCall.qobjAsDict,
   ExternalCall.npRandomRandClass1, ExternalCall.npRandomRandClass2,
   ExternalCall.npConcatenate, ExternalCall.pltFigure,
   ExternalCall.figAddSubplot, ExternalCall.axScatter,
   ExternalCall.npZeros, ExternalCall.itertoolsProduct,
   ExternalCall.npLinalgNorm, ExternalCall.itertoolsProduct,
   ExternalCall.maxCutGetQubitOps, ExternalCall.cobylaNew, ExternalCall.qaoaNew,
   ExternalCall.aquaGetAerBackend, ExternalCall.quantumInstanceNew,
   ExternalCall.qaoaRunCall, ExternalCall.sampleMostLikely,
   ExternalCall.getGraphSolution, ExternalCall.getGraphSolution,
   ExternalCall.maxCutValueRun,
   ExternalCall.dimodBqmNew, ExternalCall.dimodSamplerNew,
   ExternalCall.samplerSampleRun, ExternalCall.responseDataRun]

/-- Claim C1: the weight matrix `w` built by the distance-computation loop is
symmetric with zero diagonal: for every dataset and every pair of in-range indices
`i, j`, after the loop completes `w[i, j] = w[j, i]`, and `w[i, i] = 0`. -/
theorem C1_w_symmetric_zero_diagonal (d n : ℕ) (data : ℕ → ℕ → ℝ) (i j : ℕ)
    (_hi : i < n) (_hj : j < n) :
    w d n data i j = w d n data j i ∧ w d n data i i = 0 :=
  ⟨w_symm d n data i j, w_diag d n data i⟩

theorem C1_witness :
    (0 : ℕ) < 2 ∧ (1 : ℕ) < 2 ∧
      (w 3 2 (fun _ _ => 0) 0 1 = w 3 2 (fun _ _ => 0) 1 0 ∧
        w 3 2 (fun _ _ => 0) 0 0 = 0) :=
  ⟨by decide, by decide,
    C1_w_symmetric_zero_diagonal 3 2 (fun _ _ => 0) 0 1 (by decide) (by decide)⟩

/-- Claim C2: every entry of the weight matrix is the pairwise distance between the
corresponding data points: for in-range `i, j`, after the construction loop completes
`w[i, j]` equals the Euclidean norm of `data[i] - data[j]`. -/
theorem C2_w_entries_are_distances (d n : ℕ) (data : ℕ → ℕ → ℝ) (i j : ℕ)
    (hi : i < n) (hj : j < n) :
    w d n data i j = norm_diff d (data i) (data j) :=
  w_apply d n data hi hj

theorem C2_witness :
    (0 : ℕ) < 2 ∧ (1 : ℕ) < 2 ∧
      w 3 2 (fun _ _ => 0) 0 1 = norm_diff 3 ((fun _ _ => (0 : ℝ)) 0) ((fun _ _ => (0 : ℝ)) 1) :=
  ⟨by decide, by decide,
    C2_w_entries_are_distances 3 2 (fun _ _ => 0) 0 1 (by decide) (by decide)⟩

/-- Claim C8: the Ising model handed to the annealing sampler has zero on-site fields
and couples each unordered pair exactly once: `h` maps every `i < n` to `0` (and
nothing else), `J` contains exactly the keys `(i, j)` with `i < j < n`, each mapped to
`w[i, j]`, no key with `i ≥ j` occurs, and no key occurs twice. -/
theorem C8_ising_fields_and_couplings (n : ℕ) (wm : ℕ → ℕ → ℝ) :
    (∀ i v, (i, v) ∈ h n ↔ i < n ∧ v = 0) ∧
      (∀ i j v, ((i, j), v) ∈ J n wm ↔ i < j ∧ j < n ∧ v = wm i j) ∧
      ((J n wm).map Prod.fst).Nodup :=
  ⟨fun i v => mem_h n i v, fun i j v => mem_J n wm i j v, J_keys_nodup n wm⟩

theorem C8_witness :
    ((0, 1), (5 : ℝ)) ∈ J 2 (fun _ _ => (5 : ℝ)) ∧
      ¬((1, 0), (5 : ℝ)) ∈ J 2 (fun _ _ => (5 : ℝ)) := by
  constructor
  · exact ((C8_ising_fields_and_couplings 2 fun _ _ => (5 : ℝ)).2.1 0 1 5).mpr
      ⟨by decide, by decide, rfl⟩
  · intro hmem
    have := ((C8_ising_fields_and_couplings 2 fun _ _ => (5 : ℝ)).2.1 1 0 5).mp hmem
    omega

/-- Claim C9: every weight is nonnegative — each in-range entry of `w` is a Euclidean
norm, hence `≥ 0` — and therefore every coupling value stored in `J` is
nonnegative. -/
theorem C9_weights_nonnegative (d n : ℕ) (data : ℕ → ℕ → ℝ) :
    (∀ i j, i < n → j < n → 0 ≤ w d n data i j) ∧
      (∀ p v, (p, v) ∈ J n (w d n data) → 0 ≤ v) := by
  constructor
  · intro i j _ _
    exact w_nonneg d n data i j
  · rintro ⟨i, j⟩ v hmem
    have hv := ((mem_J n (w d n data) i j v).mp hmem).2.2
    rw [hv]
    exact w_nonneg d n data i j

theorem C9_witness :
    ((0 : ℕ) < 2 ∧ (1 : ℕ) < 2 ∧ 0 ≤ w 3 2 (fun _ _ => 0) 0 1) ∧
      (((0, 1), w 3 2 (fun _ _ => (0 : ℝ)) 0 1) ∈ J 2 (w 3 2 fun _ _ => 0) ∧
        0 ≤ w 3 2 (fun _ _ => (0 : ℝ)) 0 1) := by
  have hpair := C9_weights_nonnegative 3 2 (fun _ _ => 0)
  have hmem : ((0, 1), w 3 2 (fun _ _ => (0 : ℝ)) 0 1) ∈ J 2 (w 3 2 fun _ _ => 0) :=
    (mem_J 2 (w 3 2 fun _ _ => 0) 0 1 _).mpr ⟨by decide, by decide, rfl⟩
  exact ⟨⟨by decide, by decide, hpair.1 0 1 (by decide) (by decide)⟩,
    hmem, hpair.2 (0, 1) _ hmem⟩

/-- Claim C10: after the measurement cell runs, the circuit is built over exactly one
2-qubit quantum register and one 2-bit classical register and contains exactly four
instructions in this order: Hadamard on qubit 0, CNOT with control 0 and target 1,
measurement of qubit 0 into classical bit 0, and measurement of qubit 1 into
classical bit 1. -/
theorem C10_measured_circuit_contents :
    measured_circuit.qregs = [⟨2⟩] ∧ measured_circuit.cregs = [⟨2⟩] ∧
      measured_circuit.instructions =
        [Instruction.hGate 0, Instruction.cxGate 0 1,
         Instruction.measureGate 0 0, Instruction.measureGate 1 1] :=
  ⟨rfl, rfl, rfl⟩

/-- Claim C5: the stated pipeline order holds: the circuit is fully constructed
(gates appended, measurements added) before it is executed on the simulator backend;
the weight matrix is fully built before it is converted into a qubit operator; and
that conversion completes before the QAOA routine or the annealing sampler is
invoked.  Each step occurs exactly once in the notebook's cell order. -/
theorem C5_pipeline_order :
    notebook_step_order.indexOf PipelineStep.constructCircuit
        < notebook_step_order.indexOf PipelineStep.executeCircuit ∧
      notebook_step_order.indexOf PipelineStep.addMeasurements
        < notebook_step_order.indexOf PipelineStep.executeCircuit ∧
      notebook_step_order.indexOf PipelineStep.buildWeightMatrix
        < notebook_step_order.indexOf PipelineStep.buildQubitOperator ∧
      notebook_step_order.indexOf PipelineStep.buildQubitOperator
        < notebook_step_order.indexOf PipelineStep.runQaoa ∧
      notebook_step_order.indexOf PipelineStep.buildQubitOperator
        < notebook_step_order.indexOf PipelineStep.runAnnealingSampler ∧
      notebook_step_order.Nodup ∧
      (∀ s : PipelineStep, s ∈ notebook_step_order) := by
  refine ⟨by decide, by decide, by decide, by decide, by decide, by decide, ?_⟩
  intro s
  cases s <;> decide

/-- Claim C3: the QAOA route and the annealing route encode the same max-cut
instance.  Both are derived from the same matrix `w` built in the distance step:
`J[(i, j)] = w[i, j]` for every `i < j`, and on every spin assignment the
qubit-operator objective is an affine function (slope `1/2 > 0`, constant
`maxcut_shift`) of the annealer's Ising energy, so the two formulations rank cuts
identically. -/
theorem C3_qaoa_annealing_same_instance (d n : ℕ) (data : ℕ → ℕ → ℝ) :
    (∀ i j, i < j → j < n → ((i, j), w d n data i j) ∈ J n (w d n data)) ∧
      (∀ σ : ℕ → ℝ,
        maxcut_objective n (w d n data) σ
          = (1 / 2) * ising_energy (h n) (J n (w d n data)) σ
              + maxcut_shift n (w d n data)) ∧
      (∀ σ τ : ℕ → ℝ,
        (maxcut_objective n (w d n data) σ ≤ maxcut_objective n (w d n data) τ ↔
          ising_energy (h n) (J n (w d n data)) σ
            ≤ ising_energy (h n) (J n (w d n data)) τ)) := by
  have haff := maxcut_objective_affine n (w d n data) (w_symm d n data) (w_diag d n data)
  refine ⟨?_, haff, fun σ τ => ?_⟩
  · intro i j hij hjn
    exact (mem_J n (w d n data) i j _).mpr ⟨hij, hjn, rfl⟩
  · constructor
    · intro hle
      have h1 := haff σ
      have h2 := haff τ
      linarith
    · intro hle
      have h1 := haff σ
      have h2 := haff τ
      linarith

theorem C3_witness :
    (0 : ℕ) < 1 ∧ (1 : ℕ) < 2 ∧
      ((0, 1), w 3 2 (fun _ _ => (0 : ℝ)) 0 1) ∈ J 2 (w 3 2 fun _ _ => 0) :=
  ⟨by decide, by decide,
    (C3_qaoa_annealing_same_instance 3 2 fun _ _ => 0).1 0 1 (by decide) (by decide)⟩

/-- Claim C4: no cell catches or transforms exceptions: when a library call raises,
the exception propagates unchanged out of the cell and no later statement of that
cell executes — if `execute(...)` raises, `plot_histogram` is never invoked, and if
`qaoa.run(...)` raises, none of the result prints run. -/
theorem C4_exceptions_propagate {ε α β : Type} (executeResult : Except ε α)
    (plotHistogram : α → Except ε β) (qaoaRunResult : Except ε α)
    (printResults : α → Except ε β) (e : ε) :
    (executeResult = Except.error e →
        run_execute_cell executeResult plotHistogram
            = (Except.error e, [CellCall.executeCall]) ∧
          CellCall.plotHistogramCall ∉ (run_execute_cell executeResult plotHistogram).2) ∧
      (qaoaRunResult = Except.error e →
        run_qaoa_cell qaoaRunResult printResults
            = (Except.error e, [CellCall.qaoaRunCall]) ∧
          CellCall.printResultsCall ∉ (run_qaoa_cell qaoaRunResult printResults).2) := by
  constructor
  · intro he
    subst he
    exact ⟨rfl, by simp [run_execute_cell]⟩
  · intro he
    subst he
    exact ⟨rfl, by simp [run_qaoa_cell]⟩

theorem C4_witness :
    (Except.error 7 : Except ℕ ℕ) = Except.error 7 ∧
      (run_execute_cell (Except.error 7 : Except ℕ ℕ) (fun r => Except.ok (r + 1))
          = (Except.error 7, [CellCall.executeCall]) ∧
        CellCall.plotHistogramCall ∉
          (run_execute_cell (Except.error 7 : Except ℕ ℕ) fun r => Except.ok (r + 1)).2) :=
  ⟨rfl,
    (C4_exceptions_propagate (Except.error 7 : Except ℕ ℕ) (fun r => Except.ok (r + 1))
      (Except.error 7 : Except ℕ ℕ) (fun r => Except.ok (r + 1)) 7).1 rfl⟩

/-- Claim C7: the solver output is a spin-assignment vector: the model is constructed
with the `SPIN` variable type, so every sample returned by the annealing sampler on
it assigns each of the `n_instances` variables a value in `{-1, +1}`. -/
theorem C7_samples_are_spin_assignments (d n : ℕ) (data : ℕ → ℕ → ℝ) (s : ℕ → ℤ)
    (hs : IsSample (model d n data) s) :
    ∀ i, i < n → s i = -1 ∨ s i = 1 := by
  intro i hi
  have hvar : i ∈ (model d n data).varList := by
    simp only [model, BinaryQuadraticModel.varList, h, List.map_map, List.mem_map,
      List.mem_range, Function.comp]
    exact ⟨i, hi, rfl⟩
  have hval := hs i hvar
  simpa [model, allowed_value] using hval

theorem C7_witness :
    IsSample (model 3 1 fun _ _ => 0) (fun _ => (1 : ℤ)) ∧
      ((fun _ => (1 : ℤ)) 0 = -1 ∨ (fun _ => (1 : ℤ)) 0 = 1) := by
  have hs : IsSample (model 3 1 fun _ _ => 0) fun _ => (1 : ℤ) := by
    intro i _
    exact Or.inr rfl
  exact ⟨hs,
    C7_samples_are_spin_assignments 3 1 (fun _ _ => 0) (fun _ => (1 : ℤ)) hs 0 (by decide)⟩

/-- Claim C6 counterexample: it is not the case that every external-interface call of
the notebook cells goes into the quantum-circuit library or the annealing library —
the plotting cell calls `matplotlib` (`ax.scatter`) and the distance cell calls
`numpy` (`np.linalg.norm`). -/
theorem C6_counterexample :
    ¬ ∀ call ∈ notebook_calls,
        call.lib = ExternalLib.qiskit ∨ call.lib = ExternalLib.dimod := by
  decide

/-- Claim C6 as amended: the external interfaces the notebook cells use are the
quantum-circuit library (qiskit, including `qiskit.aqua`), the annealing library
(`dimod`), the numerical library (`numpy`), the plotting library (`matplotlib`), and
the Python standard library (`itertools`) — and no others. -/
theorem C6_amended_external_interfaces :
    (notebook_calls.map ExternalCall.lib).toFinset =
      ({ExternalLib.qiskit, ExternalLib.dimod, ExternalLib.numpy,
        ExternalLib.matplotlib, ExternalLib.pythonStd} : Finset ExternalLib) := by
  decide

end QmlNotebooks
